import Mathlib

/-!
Verification of the pickled-object database field
(`evennia/utils/picklefield.py`).

The Python values handled by the field are shallowly embedded as the
inductive type `PyVal`.  Reference identity — which the real `pickle`
module is sensitive to, and which `deepcopy` in `dbsafe_encode`
normalises away — is modelled by a reference tag `rid : Nat` carried by
every node: the pickle model (`dumps`) serialises the tag, `deepcopy`
canonicalises every tag to `0` (a fresh copy), and Python `==` is the
tag-insensitive equality `structEq`.

External standard-library routines used by the source (`pickle.dumps`/
`loads`, `base64.b64encode`/`b64decode`, `zlib.compress`/`decompress`)
are modelled as concrete executable functions at the level of their
interface contracts: each is a pure injective transform with an inverse
that fails on input outside the image, which is exactly the behaviour
`picklefield.py` relies on.
-/

namespace Picklefield

/-- The Python values the field stores.  `pyobj` stands for an arbitrary
user object: `hasPrepHook` models `hasattr(obj, "prepare_database_save")`
and `isCall` models `callable(obj)`.  `wrapper` is `_ObjectWrapper`
(a one-slot carrier, `__slots__ = ("_obj",)`).  `liveDb` is a live
database-model handle (deep copy of a value containing one fails with
`copy.Error`, per the comment in `dbsafe_encode`); `packedDb` is the
identifier-based placeholder produced by `pack_dbobj`.  The final `Nat`
of every constructor is the reference tag. -/
inductive PyVal : Type where
  | pynone   : Nat → PyVal
  | pybool   : Bool → Nat → PyVal
  | pyint    : Int → Nat → PyVal
  | pystr    : String → Nat → PyVal
  | pylist   : List PyVal → Nat → PyVal
  | pydict   : List (PyVal × PyVal) → Nat → PyVal
  | pyobj    : Bool → Bool → List PyVal → Nat → PyVal
  | wrapper  : PyVal → Nat → PyVal
  | liveDb   : Nat → Nat → PyVal
  | packedDb : Nat → Nat → PyVal
deriving Repr

mutual
/-- Canonicalise every reference tag to `0`: the result of `deepcopy`
(a fresh, unshared copy).  Two values are Python-`==` iff their
canonical forms coincide. -/
def zeroRefs : PyVal → PyVal
  | .pynone _ => .pynone 0
  | .pybool b _ => .pybool b 0
  | .pyint n _ => .pyint n 0
  | .pystr s _ => .pystr s 0
  | .pylist xs _ => .pylist (zeroRefsList xs) 0
  | .pydict kvs _ => .pydict (zeroRefsPairs kvs) 0
  | .pyobj h c xs _ => .pyobj h c (zeroRefsList xs) 0
  | .wrapper v _ => .wrapper (zeroRefs v) 0
  | .liveDb i _ => .liveDb i 0
  | .packedDb i _ => .packedDb i 0

def zeroRefsList : List PyVal → List PyVal
  | [] => []
  | x :: xs => zeroRefs x :: zeroRefsList xs

def zeroRefsPairs : List (PyVal × PyVal) → List (PyVal × PyVal)
  | [] => []
  | (k, v) :: ps => (zeroRefs k, zeroRefs v) :: zeroRefsPairs ps
end

/-- Python `==` on stored values: structural equality ignoring reference
tags. -/
def structEq (a b : PyVal) : Prop := zeroRefs a = zeroRefs b

mutual
/-- Does the value contain a live database-model handle?  `deepcopy`
raises `copy.Error` exactly on such values (the failure case named by
the comment in `dbsafe_encode`). -/
def containsLive : PyVal → Bool
  | .pylist xs _ => containsLiveList xs
  | .pydict kvs _ => containsLivePairs kvs
  | .pyobj _ _ xs _ => containsLiveList xs
  | .wrapper v _ => containsLive v
  | .liveDb _ _ => true
  | _ => false

def containsLiveList : List PyVal → Bool
  | [] => false
  | x :: xs => containsLive x || containsLiveList xs

def containsLivePairs : List (PyVal × PyVal) → Bool
  | [] => false
  | (k, v) :: ps => containsLive k || containsLive v || containsLivePairs ps
end

/-- `copy.deepcopy`: fails with `copy.Error` on values holding a live
database handle, otherwise yields a fresh (canonically-tagged)
structural copy. -/
def deepcopy (v : PyVal) : Option PyVal :=
  if containsLive v then none else some (zeroRefs v)

/-- Modelled from the spec: `pack_dbobj` (from `evennia.utils.dbserialize`,
not part of this source slice) converts a live database-model handle
into a stable identifier-based placeholder; any other value is returned
unchanged. -/
def pack_dbobj : PyVal → PyVal
  | .liveDb i _ => .packedDb i 0
  | v => v

/-! ### Variable-length natural-number encoding (used by the pickle model) -/

/-- Little-endian base-128 encoding with a continuation bit (fueled so
that it evaluates by kernel reduction; `fuel = n` always suffices). -/
def natEncAux : Nat → Nat → List Nat
  | 0, n => [n % 128]
  | fuel + 1, n =>
    if n < 128 then [n] else (n % 128 + 128) :: natEncAux fuel (n / 128)

def natEnc (n : Nat) : List Nat := natEncAux n n

/-- Decoder for `natEnc`. -/
def natDec : List Nat → Option (Nat × List Nat)
  | [] => none
  | b :: rest =>
    if b < 128 then some (b, rest)
    else
      match natDec rest with
      | some (m, r) => some (b - 128 + 128 * m, r)
      | none => none

theorem natDec_natEncAux (fuel : Nat) :
    ∀ n, n ≤ fuel → ∀ rest, natDec (natEncAux fuel n ++ rest) = some (n, rest) := by
  induction fuel with
  | zero =>
    intro n hn rest
    have : n = 0 := by omega
    subst this
    simp [natEncAux, natDec]
  | succ fuel ih =>
    intro n hn rest
    by_cases h : n < 128
    · simp [natEncAux, h, natDec]
    · simp only [natEncAux, h, if_false, List.cons_append, natDec]
      have h1 : ¬ (n % 128 + 128 < 128) := by omega
      simp only [h1, if_false]
      have hdiv : n / 128 ≤ fuel := by
        have := Nat.div_lt_self (show 0 < n by omega) (show 1 < 128 by omega)
        omega
      rw [ih (n / 128) hdiv]
      have h2 : n % 128 + 128 * (n / 128) = n := by
        have := Nat.mod_add_div n 128
        omega
      simp [h2]

theorem natDec_natEnc (n : Nat) (rest : List Nat) :
    natDec (natEnc n ++ rest) = some (n, rest) :=
  natDec_natEncAux n n le_rfl rest

theorem natEncAux_lt_256 (fuel : Nat) : ∀ n, ∀ b ∈ natEncAux fuel n, b < 256 := by
  induction fuel with
  | zero => intro n b hb; simp [natEncAux] at hb; omega
  | succ fuel ih =>
    intro n b hb
    by_cases h : n < 128
    · simp [natEncAux, h] at hb; omega
    · simp only [natEncAux, h, if_false, List.mem_cons] at hb
      rcases hb with hb | hb
      · omega
      · exact ih (n / 128) b hb

theorem natEnc_lt_256 (n : Nat) : ∀ b ∈ natEnc n, b < 256 :=
  natEncAux_lt_256 n n

theorem natEnc_ne_nil (n : Nat) : natEnc n ≠ [] := by
  unfold natEnc natEncAux
  cases n with
  | zero => simp
  | succ m =>
    split
    · simp
    · split <;> simp

/-! ### The pickle model

`pickle.dumps`/`pickle.loads` are modelled as a concrete byte-stream
serialiser of `PyVal`: a tagged prefix encoding whose streams carry the
reference tags (real pickle output likewise depends on how its input is
referenced — the motivation for the `deepcopy` in `dbsafe_encode`), a
protocol header byte, and a decoder that fails on anything outside the
image of the encoder. -/

/-- A character as three bytes (code points are below `2^24`). -/
def charEnc (c : Char) : List Nat :=
  [c.toNat / 65536, c.toNat / 256 % 256, c.toNat % 256]

/-- String payload: every character prefixed by marker `1`, closed by
marker `0`. -/
def strEnc : List Char → List Nat
  | [] => [0]
  | c :: cs => 1 :: (charEnc c ++ strEnc cs)

/-- Parse a `strEnc` payload. -/
def parseChars : List Nat → Option (List Char × List Nat)
  | 0 :: rest => some ([], rest)
  | 1 :: x :: y :: z :: rest =>
    match parseChars rest with
    | some (cs, r) => some (Char.ofNat (x * 65536 + y * 256 + z) :: cs, r)
    | none => none
  | _ => none

/-- Integer payload: sign byte then magnitude. -/
def intEnc (n : Int) : List Nat :=
  if n < 0 then 1 :: natEnc (-n).toNat else 0 :: natEnc n.toNat

/-- Parse an `intEnc` payload. -/
def intDec : List Nat → Option (Int × List Nat)
  | 0 :: rest =>
    match natDec rest with
    | some (m, r) => some ((m : Int), r)
    | none => none
  | 1 :: rest =>
    match natDec rest with
    | some (m, r) => some (-(m : Int), r)
    | none => none
  | _ => none

mutual
/-- The serialised body of a value: a constructor tag, the reference
tag, and the payload.  List-shaped payloads are cons-coded (`1` before
each element, `0` at the end). -/
def dumpsV : PyVal → List Nat
  | .pynone rid => 0 :: natEnc rid
  | .pybool b rid => 1 :: (if b then 1 else 0) :: natEnc rid
  | .pyint n rid => 2 :: (intEnc n ++ natEnc rid)
  | .pystr s rid => 3 :: (natEnc rid ++ strEnc s.data)
  | .pylist xs rid => 4 :: (natEnc rid ++ dumpsList xs)
  | .pydict kvs rid => 5 :: (natEnc rid ++ dumpsPairs kvs)
  | .pyobj h c xs rid =>
    6 :: (if h then 1 else 0) :: (if c then 1 else 0) :: (natEnc rid ++ dumpsList xs)
  | .wrapper v rid => 7 :: (natEnc rid ++ dumpsV v)
  | .liveDb i rid => 8 :: (natEnc i ++ natEnc rid)
  | .packedDb i rid => 9 :: (natEnc i ++ natEnc rid)

def dumpsList : List PyVal → List Nat
  | [] => [0]
  | x :: xs => 1 :: (dumpsV x ++ dumpsList xs)

def dumpsPairs : List (PyVal × PyVal) → List Nat
  | [] => [0]
  | (k, v) :: ps => 1 :: (dumpsV k ++ (dumpsV v ++ dumpsPairs ps))
end

mutual
/-- Fuel bound needed to parse a value: nesting is charged one unit per
level, sequencing is charged via `max` (the parser hands the same fuel
to every child). -/
def wV : PyVal → Nat
  | .pylist xs _ => 1 + wL xs
  | .pydict kvs _ => 1 + wP kvs
  | .pyobj _ _ xs _ => 1 + wL xs
  | .wrapper v _ => 1 + wV v
  | _ => 1

def wL : List PyVal → Nat
  | [] => 1
  | x :: xs => 1 + max (wV x) (wL xs)

def wP : List (PyVal × PyVal) → Nat
  | [] => 1
  | (k, v) :: ps => 1 + max (max (wV k) (wV v)) (wP ps)
end

mutual
/-- Fueled parser for `dumpsV` streams.  Fuel only bounds recursion
depth; it is decremented on every step. -/
def parseV : Nat → List Nat → Option (PyVal × List Nat)
  | 0, _ => none
  | _ + 1, 0 :: rest =>
    match natDec rest with
    | some (rid, r) => some (.pynone rid, r)
    | none => none
  | _ + 1, 1 :: b :: rest =>
    if b ≤ 1 then
      match natDec rest with
      | some (rid, r) => some (.pybool (b == 1) rid, r)
      | none => none
    else none
  | _ + 1, 2 :: rest =>
    match intDec rest with
    | some (n, r1) =>
      match natDec r1 with
      | some (rid, r2) => some (.pyint n rid, r2)
      | none => none
    | none => none
  | _ + 1, 3 :: rest =>
    match natDec rest with
    | some (rid, r1) =>
      match parseChars r1 with
      | some (cs, r2) => some (.pystr (String.mk cs) rid, r2)
      | none => none
    | none => none
  | fuel + 1, 4 :: rest =>
    match natDec rest with
    | some (rid, r1) =>
      match parseList fuel r1 with
      | some (xs, r2) => some (.pylist xs rid, r2)
      | none => none
    | none => none
  | fuel + 1, 5 :: rest =>
    match natDec rest with
    | some (rid, r1) =>
      match parsePairs fuel r1 with
      | some (kvs, r2) => some (.pydict kvs rid, r2)
      | none => none
    | none => none
  | fuel + 1, 6 :: h :: c :: rest =>
    if h ≤ 1 ∧ c ≤ 1 then
      match natDec rest with
      | some (rid, r1) =>
        match parseList fuel r1 with
        | some (xs, r2) => some (.pyobj (h == 1) (c == 1) xs rid, r2)
        | none => none
      | none => none
    else none
  | fuel + 1, 7 :: rest =>
    match natDec rest with
    | some (rid, r1) =>
      match parseV fuel r1 with
      | some (v, r2) => some (.wrapper v rid, r2)
      | none => none
    | none => none
  | _ + 1, 8 :: rest =>
    match natDec rest with
    | some (i, r1) =>
      match natDec r1 with
      | some (rid, r2) => some (.liveDb i rid, r2)
      | none => none
    | none => none
  | _ + 1, 9 :: rest =>
    match natDec rest with
    | some (i, r1) =>
      match natDec r1 with
      | some (rid, r2) => some (.packedDb i rid, r2)
      | none => none
    | none => none
  | _ + 1, _ => none

def parseList : Nat → List Nat → Option (List PyVal × List Nat)
  | 0, _ => none
  | _ + 1, 0 :: rest => some ([], rest)
  | fuel + 1, 1 :: rest =>
    match parseV fuel rest with
    | some (v, r1) =>
      match parseList fuel r1 with
      | some (xs, r2) => some (v :: xs, r2)
      | none => none
    | none => none
  | _ + 1, _ => none

def parsePairs : Nat → List Nat → Option (List (PyVal × PyVal) × List Nat)
  | 0, _ => none
  | _ + 1, 0 :: rest => some ([], rest)
  | fuel + 1, 1 :: rest =>
    match parseV fuel rest with
    | some (k, r1) =>
      match parseV fuel r1 with
      | some (v, r2) =>
        match parsePairs fuel r2 with
        | some (ps, r3) => some ((k, v) :: ps, r3)
        | none => none
      | none => none
    | none => none
  | _ + 1, _ => none
end

/-- `pickle.dumps(value, protocol=p)`: protocol header (magic byte 128,
as in real pickle, then the protocol number) followed by the value
body. -/
def dumps (v : PyVal) (protocol : Nat) : List Nat :=
  128 :: protocol % 256 :: dumpsV v

/-- `pickle.loads`: checks the header, parses one value, and requires
the stream to be fully consumed; anything else fails (raises). -/
def loads : List Nat → Option PyVal
  | 128 :: _ :: body =>
    match parseV body.length body with
    | some (v, []) => some v
    | _ => none
  | _ => none

/-! ### Round-trip lemmas for the pickle model -/

theorem char_toNat_lt (c : Char) : c.toNat < 1114112 := by
  have h := c.valid
  rcases h with h | ⟨_, h⟩ <;> simpa [Char.toNat] using by omega

theorem parseChars_strEnc (cs : List Char) (rest : List Nat) :
    parseChars (strEnc cs ++ rest) = some (cs, rest) := by
  induction cs with
  | nil => simp [strEnc, parseChars]
  | cons c cs ih =>
    have hlt := char_toNat_lt c
    have harith :
        c.toNat / 65536 * 65536 + c.toNat / 256 % 256 * 256 + c.toNat % 256 = c.toNat := by
      omega
    simp [strEnc, charEnc, parseChars, ih, harith, Char.ofNat_toNat]

theorem intDec_intEnc (n : Int) (rest : List Nat) :
    intDec (intEnc n ++ rest) = some (n, rest) := by
  by_cases h : n < 0
  · have h1 : (((-n).toNat : Int)) = -n := Int.toNat_of_nonneg (by omega)
    simp [intEnc, h, intDec, natDec_natEnc]
    omega
  · have h1 : ((n.toNat : Int)) = n := Int.toNat_of_nonneg (by omega)
    simp [intEnc, h, intDec, natDec_natEnc, h1]

theorem wV_pos (v : PyVal) : 0 < wV v := by
  cases v <;> simp [wV]

theorem wL_pos (xs : List PyVal) : 0 < wL xs := by
  cases xs <;> simp [wL]

theorem wP_pos (ps : List (PyVal × PyVal)) : 0 < wP ps := by
  cases ps with
  | nil => simp [wP]
  | cons p ps => cases p; simp [wP]

theorem string_mk_data (s : String) : String.mk s.data = s := by
  cases s; rfl

set_option maxHeartbeats 1600000 in
/-- The parser is a left inverse of the serialiser, given enough fuel:
the three statements for values, element lists and key-value lists are
proved together by induction on the fuel. -/
theorem parse_dumps (fuel : Nat) :
    (∀ v rest, wV v ≤ fuel → parseV fuel (dumpsV v ++ rest) = some (v, rest)) ∧
    (∀ xs rest, wL xs ≤ fuel → parseList fuel (dumpsList xs ++ rest) = some (xs, rest)) ∧
    (∀ ps rest, wP ps ≤ fuel →
      parsePairs fuel (dumpsPairs ps ++ rest) = some (ps, rest)) := by
  induction fuel with
  | zero =>
    refine ⟨fun v rest h => absurd h (by have := wV_pos v; omega),
            fun xs rest h => absurd h (by have := wL_pos xs; omega),
            fun ps rest h => absurd h (by have := wP_pos ps; omega)⟩
  | succ fuel ih =>
    obtain ⟨ihV, ihL, ihP⟩ := ih
    refine ⟨?_, ?_, ?_⟩
    · intro v rest h
      cases v with
      | pynone rid => simp [dumpsV, parseV, natDec_natEnc]
      | pybool b rid => cases b <;> simp [dumpsV, parseV, natDec_natEnc]
      | pyint n rid => simp [dumpsV, parseV, intDec_intEnc, natDec_natEnc]
      | pystr s rid =>
        simp [dumpsV, parseV, natDec_natEnc, parseChars_strEnc, string_mk_data]
      | pylist xs rid =>
        have hxs : wL xs ≤ fuel := by simp [wV] at h; omega
        simp [dumpsV, parseV, natDec_natEnc, ihL xs rest hxs]
      | pydict kvs rid =>
        have hkvs : wP kvs ≤ fuel := by simp [wV] at h; omega
        simp [dumpsV, parseV, natDec_natEnc, ihP kvs rest hkvs]
      | pyobj hb cb xs rid =>
        have hxs : wL xs ≤ fuel := by simp [wV] at h; omega
        cases hb <;> cases cb <;>
          simp [dumpsV, parseV, natDec_natEnc, ihL xs rest hxs]
      | wrapper v rid =>
        have hv : wV v ≤ fuel := by simp [wV] at h; omega
        simp [dumpsV, parseV, natDec_natEnc, ihV v rest hv]
      | liveDb i rid => simp [dumpsV, parseV, natDec_natEnc]
      | packedDb i rid => simp [dumpsV, parseV, natDec_natEnc]
    · intro xs rest h
      cases xs with
      | nil => simp [dumpsList, parseList]
      | cons x xs =>
        have hx : wV x ≤ fuel := by
          simp [wL] at h
          have := le_max_left (wV x) (wL xs); omega
        have hxs : wL xs ≤ fuel := by
          simp [wL] at h
          have := le_max_right (wV x) (wL xs); omega
        simp [dumpsList, parseList, ihV x _ hx, ihL xs rest hxs]
    · intro ps rest h
      cases ps with
      | nil => simp [dumpsPairs, parsePairs]
      | cons p ps =>
        obtain ⟨k, v⟩ := p
        have hk : wV k ≤ fuel := by
          simp [wP] at h
          have h1 := le_max_left (wV k) (wV v)
          have h2 := le_max_left (max (wV k) (wV v)) (wP ps); omega
        have hv : wV v ≤ fuel := by
          simp [wP] at h
          have h1 := le_max_right (wV k) (wV v)
          have h2 := le_max_left (max (wV k) (wV v)) (wP ps); omega
        have hps : wP ps ≤ fuel := by
          simp [wP] at h
          have := le_max_right (max (wV k) (wV v)) (wP ps); omega
        simp [dumpsPairs, parsePairs, ihV k _ hk, ihV v _ hv, ihP ps rest hps]

/-- The serialised body is at least as long as the fuel bound, so the
length of the stream is always enough fuel to parse it back. -/
theorem w_le_dumps_len (fuel : Nat) :
    (∀ v, wV v ≤ fuel → wV v ≤ (dumpsV v).length) ∧
    (∀ xs, wL xs ≤ fuel → wL xs ≤ (dumpsList xs).length) ∧
    (∀ ps, wP ps ≤ fuel → wP ps ≤ (dumpsPairs ps).length) := by
  induction fuel with
  | zero =>
    refine ⟨fun v h => absurd h (by have := wV_pos v; omega),
            fun xs h => absurd h (by have := wL_pos xs; omega),
            fun ps h => absurd h (by have := wP_pos ps; omega)⟩
  | succ fuel ih =>
    obtain ⟨ihV, ihL, ihP⟩ := ih
    refine ⟨?_, ?_, ?_⟩
    · intro v h
      cases v with
      | pylist xs rid =>
        have hxs : wL xs ≤ fuel := by simp [wV] at h; omega
        have := ihL xs hxs
        simp [wV, dumpsV] at *; omega
      | pydict kvs rid =>
        have hkvs : wP kvs ≤ fuel := by simp [wV] at h; omega
        have := ihP kvs hkvs
        simp [wV, dumpsV] at *; omega
      | pyobj hb cb xs rid =>
        have hxs : wL xs ≤ fuel := by simp [wV] at h; omega
        have := ihL xs hxs
        simp [wV, dumpsV] at *; omega
      | wrapper v rid =>
        have hv : wV v ≤ fuel := by simp [wV] at h; omega
        have := ihV v hv
        simp [wV, dumpsV] at *; omega
      | _ => simp [wV, dumpsV]
    · intro xs h
      cases xs with
      | nil => simp [wL, dumpsList]
      | cons x xs =>
        have hx : wV x ≤ fuel := by
          simp [wL] at h
          have := le_max_left (wV x) (wL xs); omega
        have hxs : wL xs ≤ fuel := by
          simp [wL] at h
          have := le_max_right (wV x) (wL xs); omega
        have h1 := ihV x hx
        have h2 := ihL xs hxs
        simp [wL, dumpsList]
        have := le_max_left (wV x) (wL xs)
        have := le_max_right (wV x) (wL xs)
        omega
    · intro ps h
      cases ps with
      | nil => simp [wP, dumpsPairs]
      | cons p ps =>
        obtain ⟨k, v⟩ := p
        have hk : wV k ≤ fuel := by
          simp [wP] at h
          have h1 := le_max_left (wV k) (wV v)
          have h2 := le_max_left (max (wV k) (wV v)) (wP ps); omega
        have hv : wV v ≤ fuel := by
          simp [wP] at h
          have h1 := le_max_right (wV k) (wV v)
          have h2 := le_max_left (max (wV k) (wV v)) (wP ps); omega
        have hps : wP ps ≤ fuel := by
          simp [wP] at h
          have := le_max_right (max (wV k) (wV v)) (wP ps); omega
        have h1 := ihV k hk
        have h2 := ihV v hv
        have h3 := ihP ps hps
        simp [wP, dumpsPairs]
        have := le_max_left (wV k) (wV v)
        have := le_max_right (wV k) (wV v)
        have := le_max_left (max (wV k) (wV v)) (wP ps)
        have := le_max_right (max (wV k) (wV v)) (wP ps)
        omega

/-- `pickle.loads` is a left inverse of `pickle.dumps`, for every
protocol number. -/
theorem loads_dumps (v : PyVal) (p : Nat) : loads (dumps v p) = some v := by
  have hw : wV v ≤ (dumpsV v).length :=
    (w_le_dumps_len (wV v)).1 v le_rfl
  have h := (parse_dumps (dumpsV v).length).1 v [] hw
  simp only [List.append_nil] at h
  simp [dumps, loads, h]

theorem strEnc_lt_256 (cs : List Char) : ∀ b ∈ strEnc cs, b < 256 := by
  induction cs with
  | nil => simp [strEnc]
  | cons c cs ih =>
    have := char_toNat_lt c
    simp only [strEnc, charEnc, List.mem_cons, List.mem_append]
    intro b hb
    rcases hb with h | h
    · omega
    · rcases h with h | h
      · rcases h with h | h | h <;> simp at * <;> omega
      · exact ih b h

theorem intEnc_lt_256 (n : Int) : ∀ b ∈ intEnc n, b < 256 := by
  unfold intEnc
  split <;>
    · simp only [List.mem_cons]
      intro b hb
      rcases hb with h | h
      · omega
      · exact natEnc_lt_256 _ b h

/-- Every byte of the serialised body is below 256 (needed for the
base64 transport round trip). -/
theorem dumps_lt_256 (fuel : Nat) :
    (∀ v, wV v ≤ fuel → ∀ b ∈ dumpsV v, b < 256) ∧
    (∀ xs, wL xs ≤ fuel → ∀ b ∈ dumpsList xs, b < 256) ∧
    (∀ ps, wP ps ≤ fuel → ∀ b ∈ dumpsPairs ps, b < 256) := by
  induction fuel with
  | zero =>
    refine ⟨fun v h => absurd h (by have := wV_pos v; omega),
            fun xs h => absurd h (by have := wL_pos xs; omega),
            fun ps h => absurd h (by have := wP_pos ps; omega)⟩
  | succ fuel ih =>
    obtain ⟨ihV, ihL, ihP⟩ := ih
    refine ⟨?_, ?_, ?_⟩
    · intro v h b hb
      cases v with
      | pynone rid =>
        simp only [dumpsV, List.mem_cons] at hb
        rcases hb with h' | h'
        · omega
        · exact natEnc_lt_256 _ b h'
      | pybool bv rid =>
        simp only [dumpsV, List.mem_cons] at hb
        rcases hb with h' | h' | h'
        · omega
        · split at h' <;> omega
        · exact natEnc_lt_256 _ b h'
      | pyint n rid =>
        simp only [dumpsV, List.mem_cons, List.mem_append] at hb
        rcases hb with h' | h' | h'
        · omega
        · exact intEnc_lt_256 _ b h'
        · exact natEnc_lt_256 _ b h'
      | pystr s rid =>
        simp only [dumpsV, List.mem_cons, List.mem_append] at hb
        rcases hb with h' | h' | h'
        · omega
        · exact natEnc_lt_256 _ b h'
        · exact strEnc_lt_256 _ b h'
      | pylist xs rid =>
        have hxs : wL xs ≤ fuel := by simp [wV] at h; omega
        simp only [dumpsV, List.mem_cons, List.mem_append] at hb
        rcases hb with h' | h' | h'
        · omega
        · exact natEnc_lt_256 _ b h'
        · exact ihL xs hxs b h'
      | pydict kvs rid =>
        have hkvs : wP kvs ≤ fuel := by simp [wV] at h; omega
        simp only [dumpsV, List.mem_cons, List.mem_append] at hb
        rcases hb with h' | h' | h'
        · omega
        · exact natEnc_lt_256 _ b h'
        · exact ihP kvs hkvs b h'
      | pyobj hb2 cb xs rid =>
        have hxs : wL xs ≤ fuel := by simp [wV] at h; omega
        simp only [dumpsV, List.mem_cons, List.mem_append] at hb
        rcases hb with h' | h' | h' | h' | h'
        · omega
        · split at h' <;> omega
        · split at h' <;> omega
        · exact natEnc_lt_256 _ b h'
        · exact ihL xs hxs b h'
      | wrapper v rid =>
        have hv : wV v ≤ fuel := by simp [wV] at h; omega
        simp only [dumpsV, List.mem_cons, List.mem_append] at hb
        rcases hb with h' | h' | h'
        · omega
        · exact natEnc_lt_256 _ b h'
        · exact ihV v hv b h'
      | liveDb i rid =>
        simp only [dumpsV, List.mem_cons, List.mem_append] at hb
        rcases hb with h' | h' | h'
        · omega
        · exact natEnc_lt_256 _ b h'
        · exact natEnc_lt_256 _ b h'
      | packedDb i rid =>
        simp only [dumpsV, List.mem_cons, List.mem_append] at hb
        rcases hb with h' | h' | h'
        · omega
        · exact natEnc_lt_256 _ b h'
        · exact natEnc_lt_256 _ b h'
    · intro xs h b hb
      cases xs with
      | nil => simp [dumpsList] at hb; omega
      | cons x xs =>
        have hx : wV x ≤ fuel := by
          simp [wL] at h
          have := le_max_left (wV x) (wL xs); omega
        have hxs : wL xs ≤ fuel := by
          simp [wL] at h
          have := le_max_right (wV x) (wL xs); omega
        simp only [dumpsList, List.mem_cons, List.mem_append] at hb
        rcases hb with h' | h' | h'
        · omega
        · exact ihV x hx b h'
        · exact ihL xs hxs b h'
    · intro ps h b hb
      cases ps with
      | nil => simp [dumpsPairs] at hb; omega
      | cons p ps =>
        obtain ⟨k, v⟩ := p
        have hk : wV k ≤ fuel := by
          simp [wP] at h
          have h1 := le_max_left (wV k) (wV v)
          have h2 := le_max_left (max (wV k) (wV v)) (wP ps); omega
        have hv : wV v ≤ fuel := by
          simp [wP] at h
          have h1 := le_max_right (wV k) (wV v)
          have h2 := le_max_left (max (wV k) (wV v)) (wP ps); omega
        have hps : wP ps ≤ fuel := by
          simp [wP] at h
          have := le_max_right (max (wV k) (wV v)) (wP ps); omega
        simp only [dumpsPairs, List.mem_cons, List.mem_append] at hb
        rcases hb with h' | h' | h' | h'
        · omega
        · exact ihV k hk b h'
        · exact ihV v hv b h'
        · exact ihP ps hps b h'

theorem dumps_all_lt_256 (v : PyVal) (p : Nat) : ∀ b ∈ dumps v p, b < 256 := by
  simp only [dumps, List.mem_cons]
  intro b hb
  rcases hb with h | h | h
  · omega
  · omega
  · exact (dumps_lt_256 (wV v)).1 v le_rfl b h

/-! ### The base64 transport model

`base64.b64encode`/`b64decode`: the standard 3-bytes-to-4-characters
alphabet transform with `=` padding; the decoder fails on characters
outside the alphabet or a malformed length, as the real one raises
`binascii.Error`. -/

/-- Code point of the character for a sextet value. -/
def sxCode (n : Nat) : Nat :=
  if n < 26 then 65 + n
  else if n < 52 then 71 + n
  else if n < 62 then n - 4
  else if n = 62 then 43
  else 47

/-- The base64 alphabet character for a sextet value. -/
def sx (n : Nat) : Char := Char.ofNat (sxCode n)

/-- Sextet value of an alphabet character (`none` off the alphabet). -/
def sxv (c : Char) : Option Nat :=
  let n := c.toNat
  if 65 ≤ n ∧ n ≤ 90 then some (n - 65)
  else if 97 ≤ n ∧ n ≤ 122 then some (n - 71)
  else if 48 ≤ n ∧ n ≤ 57 then some (n + 4)
  else if n = 43 then some 62
  else if n = 47 then some 63
  else none

theorem sxv_sx : ∀ n, n < 64 → sxv (sx n) = some n := by decide

theorem sx_ne_pad : ∀ n, n < 64 → sx n ≠ '=' := by decide

/-- `base64.b64encode` on a byte list, as characters. -/
def b64e : List Nat → List Char
  | [] => []
  | [b0] => [sx (b0 / 4), sx (b0 % 4 * 16), '=', '=']
  | [b0, b1] => [sx (b0 / 4), sx (b0 % 4 * 16 + b1 / 16), sx (b1 % 16 * 4), '=']
  | b0 :: b1 :: b2 :: rest =>
    sx (b0 / 4) :: sx (b0 % 4 * 16 + b1 / 16) :: sx (b1 % 16 * 4 + b2 / 64) ::
      sx (b2 % 64) :: b64e rest

/-- `base64.b64decode` on characters; fails on malformed input. -/
def b64d : List Char → Option (List Nat)
  | [] => some []
  | c0 :: c1 :: c2 :: c3 :: rest =>
    match sxv c0, sxv c1 with
    | some v0, some v1 =>
      if c2 = '=' then
        if c3 = '=' ∧ rest = [] then some [v0 * 4 + v1 / 16] else none
      else
        match sxv c2 with
        | some v2 =>
          if c3 = '=' then
            if rest = [] then some [v0 * 4 + v1 / 16, v1 % 16 * 16 + v2 / 4]
            else none
          else
            match sxv c3, b64d rest with
            | some v3, some bs =>
              some ((v0 * 4 + v1 / 16) :: (v1 % 16 * 16 + v2 / 4) ::
                (v2 % 4 * 64 + v3) :: bs)
            | _, _ => none
        | none => none
    | _, _ => none
  | _ => none

/-- The base64 decoder is a left inverse of the encoder on byte lists. -/
theorem b64d_b64e : ∀ l : List Nat, (∀ b ∈ l, b < 256) → b64d (b64e l) = some l := by
  intro l
  induction l using b64e.induct with
  | case1 => simp [b64e, b64d]
  | case2 b0 =>
    intro h
    have hb0 : b0 < 256 := h b0 (by simp)
    rw [b64e, b64d]
    rw [sxv_sx _ (by omega), sxv_sx _ (by omega)]
    simp
    omega
  | case3 b0 b1 =>
    intro h
    have hb0 : b0 < 256 := h b0 (by simp)
    have hb1 : b1 < 256 := h b1 (by simp)
    rw [b64e, b64d]
    rw [sxv_sx _ (by omega), sxv_sx _ (by omega)]
    simp only
    rw [if_neg (sx_ne_pad _ (by omega)), sxv_sx _ (by omega)]
    simp
    omega
  | case4 b0 b1 b2 rest ih =>
    intro h
    have hb0 : b0 < 256 := h b0 (by simp)
    have hb1 : b1 < 256 := h b1 (by simp)
    have hb2 : b2 < 256 := h b2 (by simp)
    have hrest : ∀ b ∈ rest, b < 256 := fun b hb => h b (by simp [hb])
    rw [b64e, b64d]
    rw [sxv_sx _ (by omega), sxv_sx _ (by omega)]
    simp only
    rw [if_neg (sx_ne_pad _ (by omega)), sxv_sx _ (by omega)]
    simp only
    rw [if_neg (sx_ne_pad _ (by omega)), sxv_sx _ (by omega), ih hrest]
    simp
    omega

/-! ### The zlib model

`zlib.compress`/`zlib.decompress` are modelled at the interface level:
a pure lossless transform whose output starts with the zlib header byte
`0x78` and whose inverse fails on data that is not zlib output, which is
the contract `dbsafe_encode`/`dbsafe_decode` rely on. -/

def zcompress (l : List Nat) : List Nat := 120 :: l

def zdecompress : List Nat → Option (List Nat)
  | 120 :: l => some l
  | _ => none

theorem zdecompress_zcompress (l : List Nat) : zdecompress (zcompress l) = some l := rfl

theorem zcompress_lt_256 (l : List Nat) (h : ∀ b ∈ l, b < 256) :
    ∀ b ∈ zcompress l, b < 256 := by
  simp only [zcompress, List.mem_cons]
  intro b hb
  rcases hb with h' | h'
  · omega
  · exact h b h'

/-! ### The codec (`dbsafe_encode` / `dbsafe_decode`) -/

/-- `DEFAULT_PROTOCOL = 4` in the source: the pickling protocol is
pinned, never `-1`/HIGHEST_PROTOCOL. -/
def DEFAULT_PROTOCOL : Nat := 4

/-- `class PickledObject(str)`: a string tagged as known to be the
output of `dbsafe_encode`. -/
structure PickledObject where
  s : String
deriving Repr, DecidableEq

/-- `dbsafe_encode(value, compress_object, pickle_protocol)`:
deep-copy (falling back to `pack_dbobj` when the copy raises
`copy.Error`), pickle at the pinned protocol, optionally compress,
base64-encode, decode bytes to str, and tag the result. -/
def dbsafe_encode (value : PyVal) (compress_object : Bool) (pickle_protocol : Nat) :
    PickledObject :=
  let v1 :=
    match deepcopy value with
    | some w => w
    | none => pack_dbobj value
  let bytes := dumps v1 pickle_protocol
  let bytes := if compress_object then zcompress bytes else bytes
  ⟨String.mk (b64e bytes)⟩

/-- `dbsafe_decode(value, compress_object)`: encode str to bytes,
base64-decode, optionally decompress, unpickle.  `none` models an
exception escaping any of the three stages. -/
def dbsafe_decode (value : String) (compress_object : Bool) : Option PyVal :=
  match b64d value.data with
  | none => none
  | some bytes =>
    match (if compress_object then zdecompress bytes else some bytes) with
    | none => none
    | some bytes2 => loads bytes2

/-! ### The conflict guard -/

/-- `hasattr(obj, "prepare_database_save")`: true for objects declaring
the ORM's reserved pre-save hook and for live database models (Django
model instances have the hook). -/
def hasPrepareDatabaseSave : PyVal → Bool
  | .pyobj h _ _ _ => h
  | .liveDb _ _ => true
  | _ => false

/-- `callable(obj)`. -/
def isCallableVal : PyVal → Bool
  | .pyobj _ c _ _ => c
  | _ => false

/-- `wrap_conflictual_object(obj)`: wrap in a fresh `_ObjectWrapper`
when the value has the reserved hook or is callable, else return it
unchanged. -/
def wrap_conflictual_object (obj : PyVal) : PyVal :=
  if hasPrepareDatabaseSave obj || isCallableVal obj then .wrapper obj 0 else obj

/-! ### Canonicalisation lemmas -/

theorem zeroRefs_idem_all (fuel : Nat) :
    (∀ v, wV v ≤ fuel → zeroRefs (zeroRefs v) = zeroRefs v) ∧
    (∀ xs, wL xs ≤ fuel → zeroRefsList (zeroRefsList xs) = zeroRefsList xs) ∧
    (∀ ps, wP ps ≤ fuel → zeroRefsPairs (zeroRefsPairs ps) = zeroRefsPairs ps) := by
  induction fuel with
  | zero =>
    refine ⟨fun v h => absurd h (by have := wV_pos v; omega),
            fun xs h => absurd h (by have := wL_pos xs; omega),
            fun ps h => absurd h (by have := wP_pos ps; omega)⟩
  | succ fuel ih =>
    obtain ⟨ihV, ihL, ihP⟩ := ih
    refine ⟨?_, ?_, ?_⟩
    · intro v h
      cases v with
      | pylist xs rid =>
        have hxs : wL xs ≤ fuel := by simp [wV] at h; omega
        simp [zeroRefs, ihL xs hxs]
      | pydict kvs rid =>
        have hkvs : wP kvs ≤ fuel := by simp [wV] at h; omega
        simp [zeroRefs, ihP kvs hkvs]
      | pyobj hb cb xs rid =>
        have hxs : wL xs ≤ fuel := by simp [wV] at h; omega
        simp [zeroRefs, ihL xs hxs]
      | wrapper v rid =>
        have hv : wV v ≤ fuel := by simp [wV] at h; omega
        simp [zeroRefs, ihV v hv]
      | _ => simp [zeroRefs]
    · intro xs h
      cases xs with
      | nil => simp [zeroRefsList]
      | cons x xs =>
        have hx : wV x ≤ fuel := by
          simp [wL] at h
          have := le_max_left (wV x) (wL xs); omega
        have hxs : wL xs ≤ fuel := by
          simp [wL] at h
          have := le_max_right (wV x) (wL xs); omega
        simp [zeroRefsList, ihV x hx, ihL xs hxs]
    · intro ps h
      cases ps with
      | nil => simp [zeroRefsPairs]
      | cons p ps =>
        obtain ⟨k, v⟩ := p
        have hk : wV k ≤ fuel := by
          simp [wP] at h
          have h1 := le_max_left (wV k) (wV v)
          have h2 := le_max_left (max (wV k) (wV v)) (wP ps); omega
        have hv : wV v ≤ fuel := by
          simp [wP] at h
          have h1 := le_max_right (wV k) (wV v)
          have h2 := le_max_left (max (wV k) (wV v)) (wP ps); omega
        have hps : wP ps ≤ fuel := by
          simp [wP] at h
          have := le_max_right (max (wV k) (wV v)) (wP ps); omega
        simp [zeroRefsPairs, ihV k hk, ihV v hv, ihP ps hps]

theorem zeroRefs_idem (v : PyVal) : zeroRefs (zeroRefs v) = zeroRefs v :=
  (zeroRefs_idem_all (wV v)).1 v le_rfl

/-- `structEq` relates every value to its deep copy: a decoded copy is
Python-`==` to the original. -/
theorem structEq_zeroRefs (v : PyVal) : structEq (zeroRefs v) v :=
  zeroRefs_idem v

/-- Decoding an encoded payload recovers the deep copy of the input,
whenever the input was deep-copyable, for either compress flag and any
protocol. -/
theorem dbsafe_decode_dbsafe_encode (v : PyVal) (c : Bool) (p : Nat)
    (h : containsLive v = false) :
    dbsafe_decode (dbsafe_encode v c p).s c = some (zeroRefs v) := by
  have hbound := dumps_all_lt_256 (zeroRefs v) p
  cases c with
  | false =>
    simp only [dbsafe_encode, deepcopy, h, Bool.false_eq_true, if_false, dbsafe_decode]
    rw [b64d_b64e _ hbound]
    simp [loads_dumps]
  | true =>
    simp only [dbsafe_encode, deepcopy, h, Bool.false_eq_true, if_false, if_true,
      dbsafe_decode]
    rw [b64d_b64e _ (zcompress_lt_256 _ hbound)]
    simp [zdecompress_zcompress, loads_dumps]

/-- When the deep copy fails, the encoder encodes `pack_dbobj value`
instead, without re-copying: the raw copy failure never escapes. -/
theorem dbsafe_encode_copy_fallback (v : PyVal) (c : Bool) (p : Nat)
    (h : containsLive v = true) :
    dbsafe_encode v c p =
      ⟨String.mk (b64e (if c then zcompress (dumps (pack_dbobj v) p)
        else dumps (pack_dbobj v) p))⟩ := by
  cases c <;> simp [dbsafe_encode, deepcopy, h]

/-! ### The field adapter (`PickledObjectField`) -/

/-- A value handed to the write path: either an arbitrary Python object
or a string that is an instance of `PickledObject`. -/
inductive WriteIn : Type where
  | wobj : PyVal → WriteIn
  | wpickled : PickledObject → WriteIn
deriving Repr

/-- `django.utils.encoding.force_str`, at the interface the source
relies on: for an instance of a `str` subclass such as `PickledObject`
it returns its argument unchanged (the class is preserved). -/
def force_str (t : PickledObject) : PickledObject := t

/-- `PickledObjectField.get_db_prep_value`: `None` and values that are
already `PickledObject` instances pass through unchanged; everything
else is encoded (then `force_str`-ed). -/
def get_db_prep_value (value : Option WriteIn) (compress : Bool) (protocol : Nat) :
    Option WriteIn :=
  match value with
  | some (.wobj v) => some (.wpickled (force_str (dbsafe_encode v compress protocol)))
  | v => v

/-- `get_db_prep_value` instrumented with a flag recording whether the
codec (`dbsafe_encode`) was invoked. -/
def get_db_prep_value_instr (value : Option WriteIn) (compress : Bool) (protocol : Nat) :
    Option WriteIn × Bool :=
  match value with
  | some (.wobj v) =>
    (some (.wpickled (force_str (dbsafe_encode v compress protocol))), true)
  | v => (v, false)

theorem get_db_prep_value_instr_fst (value : Option WriteIn) (c : Bool) (p : Nat) :
    (get_db_prep_value_instr value c p).1 = get_db_prep_value value c p := by
  cases value with
  | none => rfl
  | some w => cases w <;> rfl

/-- A non-`None` value read back from the database column: plain text,
or text tagged as a `PickledObject` instance. -/
inductive DbRaw : Type where
  | plain : String → DbRaw
  | tagged : PickledObject → DbRaw
deriving Repr

/-- The character data of the stored text (a `PickledObject` *is* a
`str`). -/
def DbRaw.text : DbRaw → String
  | .plain s => s
  | .tagged t => t.s

/-- What the read path hands back: a decoded value, or the raw stored
text returned unchanged. -/
inductive ReadOut : Type where
  | decoded : PyVal → ReadOut
  | raw : DbRaw → ReadOut
deriving Repr

/-- `PickledObjectField.from_db_value`: decode non-`None` text, unwrap
an `_ObjectWrapper` result; on a decode error, re-raise iff the text is
a definite pickle (`PickledObject` instance), otherwise return the raw
text.  `Except.error` models the propagating exception. -/
def from_db_value (value : Option DbRaw) (compress : Bool) :
    Except Unit (Option ReadOut) :=
  match value with
  | none => .ok none
  | some raw =>
    match dbsafe_decode raw.text compress with
    | some (.wrapper inner _) => .ok (some (.decoded inner))
    | some v => .ok (some (.decoded v))
    | none =>
      match raw with
      | .tagged _ => .error ()
      | .plain s => .ok (some (.raw (.plain s)))

/-- `from_db_value` instrumented with a flag recording whether the
codec (`dbsafe_decode`) was invoked. -/
def from_db_value_instr (value : Option DbRaw) (compress : Bool) :
    Except Unit (Option ReadOut) × Bool :=
  match value with
  | none => (.ok none, false)
  | some raw =>
    match dbsafe_decode raw.text compress with
    | some (.wrapper inner _) => (.ok (some (.decoded inner)), true)
    | some v => (.ok (some (.decoded v)), true)
    | none =>
      match raw with
      | .tagged _ => (.error (), true)
      | .plain s => (.ok (some (.raw (.plain s))), true)

theorem from_db_value_instr_fst (value : Option DbRaw) (c : Bool) :
    (from_db_value_instr value c).1 = from_db_value value c := by
  cases value with
  | none => rfl
  | some raw =>
    simp only [from_db_value, from_db_value_instr]
    rcases h : dbsafe_decode raw.text c with _ | v
    · cases raw <;> rfl
    · cases v <;> rfl

/-- Modelled from the spec: the base class `django.db.models.Field`
hook that `get_db_prep_lookup` defers to for permitted lookups — per the
code comment, "The Field model already calls get_db_prep_value before
doing the actual lookup"; it prepares the value and performs no storage
access. -/
def super_get_db_prep_lookup (_lookup_type : String) (value : Option WriteIn)
    (compress : Bool) (protocol : Nat) : Option WriteIn :=
  get_db_prep_value value compress protocol

/-- `PickledObjectField.get_db_prep_lookup`: lookups other than
`exact`/`in`/`isnull` fail immediately with a typed error, before the
base class is consulted at all. -/
def get_db_prep_lookup (lookup_type : String) (value : Option WriteIn)
    (compress : Bool) (protocol : Nat) : Except String (Option WriteIn) :=
  if lookup_type ∉ ["exact", "in", "isnull"] then
    .error ("Lookup type " ++ lookup_type ++ " is not supported.")
  else
    .ok (super_get_db_prep_lookup lookup_type value compress protocol)

/-- A configured field default: a plain value, or a zero-argument
callable producer. -/
inductive FieldDefault : Type where
  | val : PyVal → FieldDefault
  | producer : (Unit → PyVal) → FieldDefault

/-- `Field.has_default()`. -/
def has_default (d : Option FieldDefault) : Bool := d.isSome

/-- `PickledObjectField.get_default`: a callable default is invoked and
its result returned as-is; a non-callable default is returned verbatim
(no `force_str`, no encoding); with no default configured the base
class decides (`superDefault` stands for `models.Field.get_default`). -/
def get_default (d : Option FieldDefault) (superDefault : PyVal) : PyVal :=
  match d with
  | some (.producer f) => f ()
  | some (.val v) => v
  | none => superDefault

/-! ### The admin form (`PickledWidget` / `PickledFormField`) -/

/-- Characters that are awkward to spell in literals are named. -/
def squote : Char := Char.ofNat 39

def dquote : Char := Char.ofNat 34

def bslash : Char := Char.ofNat 92

def lbrace : Char := Char.ofNat 123

def rbrace : Char := Char.ofNat 125

/-- One character of Python `repr` of a string (printable subset: the
escapes `repr` emits for backslash, quote, newline, tab, CR). -/
def escChar (c : Char) : List Char :=
  if c = bslash then [bslash, bslash]
  else if c = squote then [bslash, squote]
  else if c.toNat = 10 then [bslash, 'n']
  else if c.toNat = 9 then [bslash, 't']
  else if c.toNat = 13 then [bslash, 'r']
  else [c]

/-- Python `repr` of a string: single-quoted with escapes. -/
def pyreprStr (s : String) : String :=
  String.mk (squote :: (s.data.foldr (fun c acc => escChar c ++ acc) [] ++ [squote]))

mutual
/-- Python `repr` of a stored value (the text the admin widget renders
and the form resubmits).  Objects with no literal syntax render the way
CPython renders them: as a non-literal `<...>` form. -/
def pyrepr : PyVal → String
  | .pynone _ => "None"
  | .pybool true _ => "True"
  | .pybool false _ => "False"
  | .pyint n _ => toString n
  | .pystr s _ => pyreprStr s
  | .pylist xs _ => "[" ++ (pyreprList xs ++ "]")
  | .pydict kvs _ => String.mk [lbrace] ++ (pyreprPairs kvs ++ String.mk [rbrace])
  | _ => "<unrepresentable object>"

def pyreprList : List PyVal → String
  | [] => ""
  | [x] => pyrepr x
  | x :: xs => pyrepr x ++ ", " ++ pyreprList xs

def pyreprPairs : List (PyVal × PyVal) → String
  | [] => ""
  | [(k, v)] => pyrepr k ++ ": " ++ pyrepr v
  | (k, v) :: ps => pyrepr k ++ ": " ++ pyrepr v ++ ", " ++ pyreprPairs ps
end

def isWs (c : Char) : Bool :=
  c = ' ' || c.toNat = 9 || c.toNat = 10 || c.toNat = 13

def skipWs : List Char → List Char
  | [] => []
  | c :: rest => if isWs c then skipWs rest else c :: rest

/-- Accumulate decimal digits. -/
def digitsAux (acc : Nat) : List Char → Nat × List Char
  | [] => (acc, [])
  | c :: rest =>
    if c.isDigit then digitsAux (acc * 10 + (c.toNat - 48)) rest else (acc, c :: rest)

/-- Body of a quoted string literal with closing quote `q`. -/
def pStrLit (q : Char) : List Char → Option (List Char × List Char)
  | [] => none
  | c :: rest =>
    if c = q then some ([], rest)
    else if c = bslash then
      match rest with
      | [] => none
      | e :: rest2 =>
        let ec :=
          if e = 'n' then Char.ofNat 10
          else if e = 't' then Char.ofNat 9
          else if e = 'r' then Char.ofNat 13
          else e
        match pStrLit q rest2 with
        | some (cs, r) => some (ec :: cs, r)
        | none => none
    else
      match pStrLit q rest with
      | some (cs, r) => some (c :: cs, r)
      | none => none

mutual
/-- `ast.literal_eval`, on the literal forms the field renders:
`None`/`True`/`False`, integers, quoted strings, lists, dicts.  Fueled;
fails (like the original raises `ValueError`/`SyntaxError`) on
non-literal input. -/
def pExpr : Nat → List Char → Option (PyVal × List Char)
  | 0, _ => none
  | fuel + 1, cs =>
    match skipWs cs with
    | [] => none
    | c :: rest =>
      if c = 'N' then
        match rest with
        | 'o' :: 'n' :: 'e' :: r => some (.pynone 0, r)
        | _ => none
      else if c = 'T' then
        match rest with
        | 'r' :: 'u' :: 'e' :: r => some (.pybool true 0, r)
        | _ => none
      else if c = 'F' then
        match rest with
        | 'a' :: 'l' :: 's' :: 'e' :: r => some (.pybool false 0, r)
        | _ => none
      else if c = '-' then
        match rest with
        | [] => none
        | d :: r =>
          if d.isDigit then
            let p := digitsAux (d.toNat - 48) r
            some (.pyint (-(p.1 : Int)) 0, p.2)
          else none
      else if c.isDigit then
        let p := digitsAux (c.toNat - 48) rest
        some (.pyint (p.1 : Int) 0, p.2)
      else if c = squote || c = dquote then
        match pStrLit c rest with
        | some (cs2, r) => some (.pystr (String.mk cs2) 0, r)
        | none => none
      else if c = '[' then
        match skipWs rest with
        | ']' :: r => some (.pylist [] 0, r)
        | cs2 =>
          match pElems fuel cs2 with
          | some (vs, r) => some (.pylist vs 0, r)
          | none => none
      else if c = lbrace then
        match skipWs rest with
        | c2 :: r =>
          if c2 = rbrace then some (.pydict [] 0, r)
          else
            match pPairsLit fuel (c2 :: r) with
            | some (ps, r2) => some (.pydict ps 0, r2)
            | none => none
        | [] => none
      else none

/-- Comma-separated expressions closed by `]`. -/
def pElems : Nat → List Char → Option (List PyVal × List Char)
  | 0, _ => none
  | fuel + 1, cs =>
    match pExpr fuel cs with
    | some (v, r1) =>
      match skipWs r1 with
      | ',' :: r2 =>
        match pElems fuel r2 with
        | some (vs, r3) => some (v :: vs, r3)
        | none => none
      | ']' :: r2 => some ([v], r2)
      | _ => none
    | none => none

/-- Comma-separated `key: value` entries closed by a right brace. -/
def pPairsLit : Nat → List Char → Option (List (PyVal × PyVal) × List Char)
  | 0, _ => none
  | fuel + 1, cs =>
    match pExpr fuel cs with
    | some (k, r1) =>
      match skipWs r1 with
      | ':' :: r2 =>
        match pExpr fuel r2 with
        | some (v, r3) =>
          match skipWs r3 with
          | ',' :: r4 =>
            match pPairsLit fuel r4 with
            | some (ps, r5) => some ((k, v) :: ps, r5)
            | none => none
          | c :: r4 => if c = rbrace then some ([(k, v)], r4) else none
          | [] => none
        | none => none
      | _ => none
    | none => none
end

/-- `ast.literal_eval` on a whole string: one literal, nothing after. -/
def literal_eval (s : String) : Option PyVal :=
  match pExpr (2 * s.length + 2) s.data with
  | some (v, r) => if skipWs r = [] then some v else none
  | none => none

/-- `str.strip()`: drop whitespace from both ends. -/
def pythonStrip (s : String) : String :=
  String.mk (((s.data.dropWhile isWs).reverse.dropWhile isWs).reverse)

/-- `CharField.clean` at the interface the source relies on: `None`
becomes the empty string, string input is stripped (`strip=True` is the
`CharField` default), and with `required=False` (forced in `__init__`)
no validation error is possible. -/
def charfield_clean (value : Option String) : String := pythonStrip (value.getD "")

/-- The `invalid` message of `PickledFormField` (shortened tail). -/
def invalid_error_message : String :=
  "This is not a Python Literal. You can store things like strings, " ++
  "integers, or floats, but you must do it by typing them as you would " ++
  "type them in the Python Interpreter."

/-- `PickledFormField.clean`: blank input becomes `None`; the submitted
text is parsed as a Python literal; failing that, the `repr` of the
text is parsed (converting the submission to a string value); only if
that also fails is a `ValidationError` raised. -/
def PickledFormField_clean (value : Option String) : Except String PyVal :=
  let v1 := charfield_clean value
  let v2 := if pythonStrip v1 = "" then "None" else v1
  match literal_eval v2 with
  | some pv => .ok pv
  | none =>
    match literal_eval (pyreprStr v2) with
    | some pv => .ok pv
    | none => .error invalid_error_message

/-- Companion to `dbsafe_decode_dbsafe_encode` for the fallback path:
when the deep copy fails, decoding recovers `pack_dbobj` of the input
exactly (no reference canonicalisation happens). -/
theorem dbsafe_decode_encode_uncopyable (v : PyVal) (c : Bool) (p : Nat)
    (h : containsLive v = true) :
    dbsafe_decode (dbsafe_encode v c p).s c = some (pack_dbobj v) := by
  have hbound := dumps_all_lt_256 (pack_dbobj v) p
  cases c with
  | false =>
    simp only [dbsafe_encode, deepcopy, h, if_true, Bool.false_eq_true, if_false,
      dbsafe_decode]
    rw [b64d_b64e _ hbound]
    simp [loads_dumps]
  | true =>
    simp only [dbsafe_encode, deepcopy, h, if_true, dbsafe_decode]
    rw [b64d_b64e _ (zcompress_lt_256 _ hbound)]
    simp [zdecompress_zcompress, loads_dumps]

/-! ## The claims -/

/-- C1: for every serializable (deep-copyable) value `v` and every
compress flag `c`, `dbsafe_decode (dbsafe_encode v c p) c` succeeds and
returns a value Python-equal to the original, nested containers and
mixed types included. -/
theorem c1_roundtrip (v : PyVal) (c : Bool) (p : Nat)
    (h : containsLive v = false) :
    ∃ w, dbsafe_decode (dbsafe_encode v c p).s c = some w ∧ structEq w v :=
  ⟨zeroRefs v, dbsafe_decode_dbsafe_encode v c p h, structEq_zeroRefs v⟩

/-- C1 witness: the round trip at a concrete nested mixed-type value
(a dict holding a string, an int, a bool, `None` and a nested list),
with compression on. -/
theorem c1_roundtrip_witness :
    containsLive (PyVal.pydict
      [(PyVal.pystr "a" 1, PyVal.pyint 1 2),
       (PyVal.pystr "b" 3,
        PyVal.pylist [PyVal.pyint (-2) 4, PyVal.pybool true 5, PyVal.pynone 6] 7)] 8)
      = false ∧
    ∃ w, dbsafe_decode
        (dbsafe_encode (PyVal.pydict
          [(PyVal.pystr "a" 1, PyVal.pyint 1 2),
           (PyVal.pystr "b" 3,
            PyVal.pylist [PyVal.pyint (-2) 4, PyVal.pybool true 5, PyVal.pynone 6] 7)] 8)
          true 4).s true = some w ∧
      structEq w (PyVal.pydict
        [(PyVal.pystr "a" 1, PyVal.pyint 1 2),
         (PyVal.pystr "b" 3,
          PyVal.pylist [PyVal.pyint (-2) 4, PyVal.pybool true 5, PyVal.pynone 6] 7)] 8) :=
  ⟨rfl, c1_roundtrip _ true 4 rfl⟩

/-- C2: on the read path, for non-`None` stored text whose decode
fails, the error propagates iff the text is a `PickledObject` instance;
for plain text of unknown provenance the error is swallowed and the raw
text is returned unchanged. -/
theorem c2_decode_failure_policy (s : String) (t : PickledObject) (c : Bool)
    (h1 : dbsafe_decode t.s c = none) (h2 : dbsafe_decode s c = none) :
    from_db_value (some (.tagged t)) c = .error () ∧
    from_db_value (some (.plain s)) c = .ok (some (.raw (.plain s))) := by
  constructor
  · simp [from_db_value, DbRaw.text, h1]
  · simp [from_db_value, DbRaw.text, h2]

/-- C2 witness: the plain legacy text `"hello"` (never produced by the
encoder) fails to decode; tagged it propagates the error, untagged it is
returned unchanged. -/
theorem c2_decode_failure_policy_witness :
    dbsafe_decode "hello" false = none ∧
    from_db_value (some (.tagged ⟨"hello"⟩)) false = .error () ∧
    from_db_value (some (.plain "hello")) false = .ok (some (.raw (.plain "hello"))) :=
  ⟨rfl, (c2_decode_failure_policy "hello" ⟨"hello"⟩ false rfl rfl).1,
    (c2_decode_failure_policy "hello" ⟨"hello"⟩ false rfl rfl).2⟩

/-- C3: lookup kinds outside `exact`/`in`/`isnull` fail immediately
with the typed unsupported-lookup error, before the base class (the
only party that could touch storage) is ever consulted; the three
permitted kinds do not raise and defer to the base class. -/
theorem c3_lookup_restriction (lt : String) (v : Option WriteIn) (c : Bool) (p : Nat) :
    (lt ∉ ["exact", "in", "isnull"] →
      get_db_prep_lookup lt v c p =
        .error ("Lookup type " ++ lt ++ " is not supported.")) ∧
    (lt ∈ ["exact", "in", "isnull"] →
      get_db_prep_lookup lt v c p = .ok (super_get_db_prep_lookup lt v c p)) := by
  constructor
  · intro h
    simp [get_db_prep_lookup, h]
  · intro h
    simp [get_db_prep_lookup, h]

/-- C3 witness: `regex` is rejected with the typed error; `exact` is
accepted. -/
theorem c3_lookup_restriction_witness :
    ("regex" ∉ ["exact", "in", "isnull"] ∧
      get_db_prep_lookup "regex" none false 4 =
        .error ("Lookup type " ++ "regex" ++ " is not supported.")) ∧
    ("exact" ∈ ["exact", "in", "isnull"] ∧
      get_db_prep_lookup "exact" none false 4 =
        .ok (super_get_db_prep_lookup "exact" none false 4)) :=
  ⟨⟨by decide, (c3_lookup_restriction "regex" none false 4).1 (by decide)⟩,
   ⟨by decide, (c3_lookup_restriction "exact" none false 4).2 (by decide)⟩⟩

/-- C4 counterexample: the claim says every `None` *or empty* input
bypasses encoding; but the empty string is not `None` and not a
`PickledObject`, so the write path does invoke the codec on it and
stores an encoded payload, not the absent marker. -/
theorem c4_counterexample :
    (get_db_prep_value_instr (some (.wobj (.pystr "" 0))) false 4).2 = true ∧
    ((get_db_prep_value_instr (some (.wobj (.pystr "" 0))) false 4).1).isSome = true :=
  ⟨rfl, rfl⟩

/-- C4 (amended): only a `None` input bypasses encoding on the write
path (stored as the native absent marker, codec never invoked), and the
stored absent marker is returned by the read path without invoking the
codec; empty-but-non-`None` values are encoded like any other value. -/
theorem c4_none_short_circuit (c : Bool) (p : Nat) :
    get_db_prep_value_instr none c p = (none, false) ∧
    from_db_value_instr none c = (.ok none, false) :=
  ⟨rfl, rfl⟩

/-- C5 counterexample: submitting `not valid syntax{{{` does NOT raise
a validation error: `clean` falls back to parsing `repr(value)` — which
always succeeds for a string — and returns the submitted text as a
Python string value. -/
theorem c5_counterexample :
    PickledFormField_clean (some "not valid syntax\x7b\x7b\x7b") =
      .ok (.pystr "not valid syntax\x7b\x7b\x7b" 0) := rfl

/-- C5 (amended): submitting the rendered literal representation of
`{"a": 1, "b": [1, 2, 3]}` unmodified reproduces the identical mapping;
submitting the non-literal text `not valid syntax{{{` does not raise:
the repr fallback converts it to the identical Python string (a
validation error would only occur if even the repr of the submission
failed to parse). -/
theorem c5_admin_literal_roundtrip :
    PickledFormField_clean (some (pyrepr (PyVal.pydict
      [(PyVal.pystr "a" 0, PyVal.pyint 1 0),
       (PyVal.pystr "b" 0,
        PyVal.pylist [PyVal.pyint 1 0, PyVal.pyint 2 0, PyVal.pyint 3 0] 0)] 0))) =
      .ok (PyVal.pydict
        [(PyVal.pystr "a" 0, PyVal.pyint 1 0),
         (PyVal.pystr "b" 0,
          PyVal.pylist [PyVal.pyint 1 0, PyVal.pyint 2 0, PyVal.pyint 3 0] 0)] 0) ∧
    PickledFormField_clean (some "not valid syntax\x7b\x7b\x7b") =
      .ok (.pystr "not valid syntax\x7b\x7b\x7b" 0) :=
  ⟨rfl, rfl⟩

/-- C6: a value with the reserved `prepare_database_save` hook or a
callable value is wrapped in a fresh one-slot `_ObjectWrapper` holding
exactly it; decoding the encoded wrapped value through the read path
(which unwraps) returns a value Python-equal to the original; a value
with neither property passes through `wrap_conflictual_object`
unchanged. -/
theorem c6_conflict_wrap (v : PyVal) (c : Bool) (p : Nat) :
    ((hasPrepareDatabaseSave v || isCallableVal v) = true →
      wrap_conflictual_object v = .wrapper v 0 ∧
      ∃ w, from_db_value
          (some (.tagged (dbsafe_encode (wrap_conflictual_object v) c p))) c =
            .ok (some (.decoded w)) ∧
        structEq w v) ∧
    ((hasPrepareDatabaseSave v || isCallableVal v) = false →
      wrap_conflictual_object v = v) := by
  constructor
  · intro h
    have hw : wrap_conflictual_object v = .wrapper v 0 := by
      simp [wrap_conflictual_object, h]
    refine ⟨hw, ?_⟩
    rw [hw]
    by_cases hl : containsLive v = true
    · have hwl : containsLive (PyVal.wrapper v 0) = true := by
        simp [containsLive, hl]
      have hdec := dbsafe_decode_encode_uncopyable (.wrapper v 0) c p hwl
      have hpack : pack_dbobj (PyVal.wrapper v 0) = PyVal.wrapper v 0 := rfl
      rw [hpack] at hdec
      exact ⟨v, by simp [from_db_value, DbRaw.text, hdec], rfl⟩
    · have hcl : containsLive (PyVal.wrapper v 0) = false := by
        simp [containsLive]
        simpa using hl
      have hdec := dbsafe_decode_dbsafe_encode (.wrapper v 0) c p hcl
      have hzr : zeroRefs (PyVal.wrapper v 0) = PyVal.wrapper (zeroRefs v) 0 := by
        simp [zeroRefs]
      rw [hzr] at hdec
      exact ⟨zeroRefs v, by simp [from_db_value, DbRaw.text, hdec], structEq_zeroRefs v⟩
  · intro h
    simp [wrap_conflictual_object, h]

/-- C6 witness: a callable object is wrapped, and the encode/decode/
unwrap round trip returns it (up to Python equality). -/
theorem c6_conflict_wrap_witness :
    (hasPrepareDatabaseSave (PyVal.pyobj false true [] 7) ||
      isCallableVal (PyVal.pyobj false true [] 7)) = true ∧
    (wrap_conflictual_object (PyVal.pyobj false true [] 7) =
      .wrapper (PyVal.pyobj false true [] 7) 0 ∧
    ∃ w, from_db_value
        (some (.tagged (dbsafe_encode
          (wrap_conflictual_object (PyVal.pyobj false true [] 7)) false 4))) false =
          .ok (some (.decoded w)) ∧
      structEq w (PyVal.pyobj false true [] 7)) :=
  ⟨rfl, (c6_conflict_wrap (PyVal.pyobj false true [] 7) false 4).1 rfl⟩

/-- C7: when the deep copy fails (`copy.Error`), `dbsafe_encode` falls
back to `pack_dbobj` — converting the live handle into its stable
identifier-based placeholder — and still returns an encoded payload:
the copy failure never propagates (the function is total). -/
theorem c7_copy_fallback (v : PyVal) (c : Bool) (p : Nat)
    (h : deepcopy v = none) :
    dbsafe_encode v c p =
      ⟨String.mk (b64e (if c then zcompress (dumps (pack_dbobj v) p)
        else dumps (pack_dbobj v) p))⟩ := by
  have hl : containsLive v = true := by
    by_contra hc
    simp [deepcopy, Bool.eq_false_iff.mpr hc] at h
  exact dbsafe_encode_copy_fallback v c p hl

/-- C7 witness: a live database-model handle cannot be deep-copied; the
encoder packs it and encodes the placeholder. -/
theorem c7_copy_fallback_witness :
    deepcopy (PyVal.liveDb 5 1) = none ∧
    dbsafe_encode (PyVal.liveDb 5 1) false 4 =
      ⟨String.mk (b64e (if false then zcompress (dumps (pack_dbobj (PyVal.liveDb 5 1)) 4)
        else dumps (pack_dbobj (PyVal.liveDb 5 1)) 4))⟩ :=
  ⟨rfl, c7_copy_fallback (PyVal.liveDb 5 1) false 4 rfl⟩

/-- C8: two structurally equal but differently-referenced deep-copyable
inputs produce byte-identical encoded text under the same flag and
protocol, because the codec deep-copies (canonicalising references)
before pickling. -/
theorem c8_byte_stability (v1 v2 : PyVal) (c : Bool) (p : Nat)
    (h1 : containsLive v1 = false) (h2 : containsLive v2 = false)
    (heq : structEq v1 v2) :
    dbsafe_encode v1 c p = dbsafe_encode v2 c p := by
  unfold structEq at heq
  simp [dbsafe_encode, deepcopy, h1, h2, heq]

/-- C8 witness: the same logical list built with different reference
tags encodes to identical text. -/
theorem c8_byte_stability_witness :
    containsLive (PyVal.pylist [PyVal.pystr "x" 7] 3) = false ∧
    containsLive (PyVal.pylist [PyVal.pystr "x" 1] 0) = false ∧
    structEq (PyVal.pylist [PyVal.pystr "x" 7] 3) (PyVal.pylist [PyVal.pystr "x" 1] 0) ∧
    dbsafe_encode (PyVal.pylist [PyVal.pystr "x" 7] 3) false 4 =
      dbsafe_encode (PyVal.pylist [PyVal.pystr "x" 1] 0) false 4 :=
  ⟨rfl, rfl, rfl,
    c8_byte_stability (PyVal.pylist [PyVal.pystr "x" 7] 3)
      (PyVal.pylist [PyVal.pystr "x" 1] 0) false 4 rfl rfl rfl⟩

/-- C9: with a configured default, a callable default is invoked and
its fresh result returned as-is, and a non-callable default is returned
verbatim — in neither case does the value pass through the codec or any
string coercion (the override exists precisely to skip the base
class's `force_str`). -/
theorem c9_get_default (f : Unit → PyVal) (v sup : PyVal) :
    has_default (some (.producer f)) = true ∧
    get_default (some (.producer f)) sup = f () ∧
    has_default (some (.val v)) = true ∧
    get_default (some (.val v)) sup = v :=
  ⟨rfl, rfl, rfl, rfl⟩

/-- C10: the write-path conversion is idempotent: `None` and
`PickledObject` instances pass through unchanged, and since the encoder
tags its output as a `PickledObject`, a second application of
`get_db_prep_value` changes nothing. -/
theorem c10_prep_idempotent (x : Option WriteIn) (t : PickledObject) (c : Bool) (p : Nat) :
    get_db_prep_value none c p = none ∧
    get_db_prep_value (some (.wpickled t)) c p = some (.wpickled t) ∧
    get_db_prep_value (get_db_prep_value x c p) c p = get_db_prep_value x c p := by
  refine ⟨rfl, rfl, ?_⟩
  cases x with
  | none => rfl
  | some w => cases w <;> rfl

end Picklefield
